import Mathlib

/-!
Shallow embedding of `src/src/main.rs` (FileMappedVector), a file-backed
growable vector: a 4096-byte header (8-byte magic + element count) followed
by a tightly packed data region, mapped into memory once and grown in place
with fallocate.

Modelling conventions:
* The backing file, as seen before mapping, is `FileM T`: its permission
  read-only bit (what `file.metadata().permissions().readonly()` reads), its
  byte length, the header's magic bytes and size field, and the data region
  as a function from element index to value.
* An open instance is `FMVState T`: the in-memory `capacity` field plus the
  mapped header (`magic`, `size`), the mapped data region (`data`), and the
  backing file's current byte length (`fileLen`).
* Rust `assert!` failures and panics are the `abort` constructors / `none`;
  errors returned to the caller (`anyhow::Result`) are `err` constructors.
* `mmap` success and `fallocate` success are oracle booleans (`mmapOk`,
  `allocOk`): the code branches on their return values, nothing else about
  them is observable in the logic. A failed `fallocate` leaves the file
  length unchanged; a successful one extends the file to the end of the
  requested range (mode 0 semantics). `fallocate` with a zero-length range
  fails (EINVAL), so the file length is also unchanged in that case.
* Writes through the mapping always store the value in `data`; the embedding
  does not model OS-level faults on touching pages beyond the end of file.
* Element size `size_of::<T>()` is an explicit `elemSize : Nat` parameter;
  a Rust `%`-by-zero panic (zero-sized `T`) is modelled as `abort`.
-/

namespace FMVec

/-- MAGIC bytes of the header: the 8 bytes of "FMAPVEC" followed by NUL
(`const MAGIC: [u8; 8]`, main.rs line 13). -/
def MAGIC : List Nat := [70, 77, 65, 80, 86, 69, 67, 0]

/-- Size in bytes of `FMVHeader`: one 4096-byte page (main.rs lines 16-23,
asserted at line 35). -/
def headerSize : Nat := 4096

/-- Model of the backing file as handed to `FileMappedVector::new`. -/
structure FileM (T : Type) where
  /-- The read-only permission bit the code queries at main.rs line 37. -/
  readonly : Bool
  /-- File length in bytes. -/
  length : Nat
  /-- The 8 magic bytes stored at offset 0 of the header page. -/
  magic : List Nat
  /-- The `size` field of the stored header (element count). -/
  hsize : Nat
  /-- Contents of the data region, per element index. -/
  data : Nat → T

/-- Model of an open `FileMappedVector<T>` together with the mapped file
contents it aliases. -/
structure FMVState (T : Type) where
  /-- The in-memory `capacity` field (elements of allocated storage). -/
  capacity : Nat
  /-- `header.magic` as seen through the mapping. -/
  magic : List Nat
  /-- `header.size` as seen through the mapping (the logical length). -/
  size : Nat
  /-- The mapped data region, per element index. -/
  data : Nat → T
  /-- Current byte length of the backing file. -/
  fileLen : Nat

/-- Errors returned (as `anyhow::Result::Err`) by `new`. The source has no
corrupt-header error: no error constructor exists for it. -/
inductive NewError where
  /-- The read-only check at main.rs lines 37-39 failed. -/
  | PermissionError
  /-- `mmap` returned MAP_FAILED (main.rs lines 88-91). -/
  | MappingError
deriving DecidableEq

/-- Outcome of `FileMappedVector::new`: a returned error, an assertion
failure (process abort), or a constructed instance. -/
inductive NewResult (T : Type) where
  | err (e : NewError)
  | abort
  | ok (st : FMVState T)

/-- Outcome of `FileMappedVector::push`: an assertion failure (process
abort) or the updated instance. `push` returns `()` in the source, so there
is no error constructor: no failure is ever surfaced to the caller. -/
inductive PushResult (T : Type) where
  | abort
  | ok (st : FMVState T)

/-- Initialization of an empty file (main.rs lines 46-66): `set_len` to
`size_of::<FMVHeader>() + size_of::<T>() * 32` and write a fresh header
with the magic and size 0. The fresh data region reads as zero bytes; the
model leaves `data` abstract since `T` has no canonical zero, and no claim
reads an element that was never pushed. -/
def initFile {T : Type} (elemSize : Nat) (f : FileM T) : FileM T :=
  { f with length := headerSize + elemSize * 32, magic := MAGIC, hsize := 0 }

/-- Checks and mapping of `FileMappedVector::new` after the optional
initialization (main.rs lines 68-113), applied to the current file `f1`:
the assert `fsize >= size_of::<FMVHeader>()`; the assert
`fsize % size_of::<T>() == 0` (a zero `elemSize` panics in Rust's `%`,
hence aborts); `mmap`; and on success the instance with
`capacity = (fsize - headerSize) / elemSize` viewing the file's header and
data through the mapping. -/
def newChecked {T : Type} (elemSize : Nat) (mmapOk : Bool) (f1 : FileM T) :
    NewResult T × FileM T :=
  if headerSize ≤ f1.length then
    if elemSize = 0 then (NewResult.abort, f1)
    else if (f1.length - headerSize) % elemSize = 0 then
      if mmapOk then
        (NewResult.ok
          { capacity := (f1.length - headerSize) / elemSize
            magic := f1.magic
            size := f1.hsize
            data := f1.data
            fileLen := f1.length }, f1)
      else (NewResult.err NewError.MappingError, f1)
    else (NewResult.abort, f1)
  else (NewResult.abort, f1)

/-- Embedding of `FileMappedVector::new` (main.rs lines 34-114). Returns the
construction outcome together with the (possibly initialized) file, so that
file mutation is observable. Steps, in source order: the read-only check
(lines 37-39); initialization when the file is empty (lines 46-66); then
the checks and the mapping (`newChecked`, lines 68-113). -/
def new {T : Type} (elemSize : Nat) (mmapOk : Bool) (f : FileM T) :
    NewResult T × FileM T :=
  if f.readonly then (NewResult.err NewError.PermissionError, f)
  else newChecked elemSize mmapOk
    (if f.length = 0 then initFile elemSize f else f)

/-- Embedding of the growth branch of `push` (main.rs lines 123-154):
`new_cap = capacity * 2`; `fallocate(fd, 0, old_size, size_diff)` where
`old_size = size_of::<T>() * capacity + size_of::<FMVHeader>()` and
`size_diff = size_of::<T>() * (new_cap - capacity)`; on fallocate failure
the error is only logged (perror) and execution continues; `capacity` is
set to `new_cap` unconditionally. A successful fallocate extends the file
to at least `old_size + size_diff` bytes; a failed or zero-length one
leaves the file length unchanged. The header fields and data region are
not written by this branch. -/
def grow {T : Type} (elemSize : Nat) (allocOk : Bool) (st : FMVState T) :
    FMVState T :=
  let newCap := st.capacity * 2
  let oldSize := elemSize * st.capacity + headerSize
  let sizeDiff := elemSize * (newCap - st.capacity)
  { st with
    capacity := newCap
    fileLen :=
      if sizeDiff ≠ 0 ∧ allocOk then max st.fileLen (oldSize + sizeDiff)
      else st.fileLen }

/-- Embedding of `FileMappedVector::push` (main.rs lines 116-161): assert
`header.magic == MAGIC` (abort on mismatch); if `header.size >= capacity`
run the growth branch; then write `value` at `data[header.size]` and
increment `header.size`. -/
def push {T : Type} (elemSize : Nat) (allocOk : Bool) (st : FMVState T)
    (v : T) : PushResult T :=
  if st.magic = MAGIC then
    let st1 := if st.capacity ≤ st.size then grow elemSize allocOk st else st
    PushResult.ok
      { st1 with
        data := fun i => if i = st1.size then v else st1.data i
        size := st1.size + 1 }
  else PushResult.abort

/-- Embedding of `FileMappedVector::len` (main.rs lines 163-165): returns
`header.size`. -/
def len {T : Type} (st : FMVState T) : Nat := st.size

/-- Embedding of `Index for FileMappedVector` (main.rs lines 168-175):
assert `index < capacity` (modelled as `none`, a process abort), then read
`data[index]`. -/
def index {T : Type} (st : FMVState T) (i : Nat) : Option T :=
  if i < st.capacity then some (st.data i) else none

/-- The growth condition of `push` (main.rs line 123):
`header.size >= self.capacity`. -/
def needsGrowth {T : Type} (st : FMVState T) : Bool := st.capacity ≤ st.size

/-- Run a sequence of pushes, counting growth events. `none` models an
abort during some push; `some (st, g)` is the final state together with the
number of pushes that took the growth branch. -/
def run {T : Type} (elemSize : Nat) (allocOk : Bool) (st : FMVState T) :
    List T → Option (FMVState T × Nat)
  | [] => some (st, 0)
  | v :: vs =>
    match push elemSize allocOk st v with
    | PushResult.abort => none
    | PushResult.ok st1 =>
      match run elemSize allocOk st1 vs with
      | none => none
      | some (st2, g) =>
        some (st2, (if needsGrowth st then 1 else 0) + g)

/-! Concrete inputs over `T = Nat` with `elemSize = 8` (the spec's 8-byte
unsigned integer element), used in counterexamples and witnesses. -/

/-- An empty, writable file. -/
def emptyFileNat : FileM Nat :=
  { readonly := false, length := 0, magic := [], hsize := 0
    data := fun _ => 0 }

/-- A read-only (by permission bits) file. -/
def roFileNat : FileM Nat :=
  { readonly := true, length := 0, magic := [], hsize := 0
    data := fun _ => 0 }

/-- A non-empty file of header-page size whose magic bytes are all zero. -/
def badMagicFile : FileM Nat :=
  { readonly := false, length := 4096, magic := [0, 0, 0, 0, 0, 0, 0, 0]
    hsize := 0, data := fun _ => 0 }

/-- A well-formed file whose stored size field (5) exceeds the capacity its
length encodes (4104 bytes, one 8-byte element of data region). -/
def c4file : FileM Nat :=
  { readonly := false, length := 4104, magic := MAGIC, hsize := 5
    data := fun _ => 0 }

/-- A well-formed file holding exactly one 8-byte element, logically full:
the next push must grow. -/
def c2file : FileM Nat :=
  { readonly := false, length := 4104, magic := MAGIC, hsize := 1
    data := fun _ => 0 }

/-- A well-formed file holding exactly one 8-byte element, logically full:
the next push must grow. -/
def c9file : FileM Nat :=
  { readonly := false, length := 4104, magic := MAGIC, hsize := 1
    data := fun _ => 0 }

/-- A well-formed file of exactly one header page: its data region is
empty, so the computed capacity is 0. -/
def zeroCapFile : FileM Nat :=
  { readonly := false, length := 4096, magic := MAGIC, hsize := 0
    data := fun _ => 0 }

/-- A non-empty file whose data-region length (4 bytes) is not a multiple
of the element size 8. -/
def badModFile : FileM Nat :=
  { readonly := false, length := 4100, magic := MAGIC, hsize := 0
    data := fun _ => 0 }

/-- A well-formed open state: capacity 32, empty, with the matching file
length. -/
def invState : FMVState Nat :=
  { capacity := 32, magic := MAGIC, size := 0, data := fun _ => 0
    fileLen := headerSize + 8 * 32 }

/-- An open state whose mapped magic bytes are all zero. -/
def badMagicState : FMVState Nat :=
  { capacity := 32, magic := [0, 0, 0, 0, 0, 0, 0, 0], size := 0
    data := fun _ => 0, fileLen := headerSize + 8 * 32 }

/-! Helper lemmas shared by several claims. -/

/-- Construction on an empty, writable file: the file is initialized to a
4096-byte header plus `32 * elemSize` bytes of data region, and the
instance starts with capacity 32 and size 0. -/
theorem new_empty {T : Type} (elemSize : Nat) (he : elemSize ≠ 0)
    (f : FileM T) (hro : f.readonly = false) (hlen : f.length = 0) :
    new elemSize true f =
      (NewResult.ok
        { capacity := 32, magic := MAGIC, size := 0, data := f.data
          fileLen := headerSize + elemSize * 32 }, initFile elemSize f) := by
  have hpos : 0 < elemSize := Nat.pos_of_ne_zero he
  simp only [new, hro, Bool.false_eq_true, if_false, hlen, if_pos rfl]
  simp only [newChecked, initFile, Nat.add_sub_cancel_left,
    Nat.mul_mod_right, Nat.le_add_right, if_pos, if_true, he, if_false,
    Nat.mul_div_cancel_left 32 hpos]

/-- Reduction of `push` in the growth case. -/
theorem push_eq_grow {T : Type} (elemSize : Nat) (allocOk : Bool)
    (st : FMVState T) (v : T) (hm : st.magic = MAGIC)
    (hg : st.capacity ≤ st.size) :
    push elemSize allocOk st v = PushResult.ok
      { capacity := (grow elemSize allocOk st).capacity
        magic := (grow elemSize allocOk st).magic
        size := (grow elemSize allocOk st).size + 1
        data := fun i => if i = (grow elemSize allocOk st).size then v
          else (grow elemSize allocOk st).data i
        fileLen := (grow elemSize allocOk st).fileLen } := by
  simp [push, hm, hg]

/-- Reduction of `push` in the no-growth case. -/
theorem push_eq_nogrow {T : Type} (elemSize : Nat) (allocOk : Bool)
    (st : FMVState T) (v : T) (hm : st.magic = MAGIC)
    (hg : st.size < st.capacity) :
    push elemSize allocOk st v = PushResult.ok
      { capacity := st.capacity
        magic := st.magic
        size := st.size + 1
        data := fun i => if i = st.size then v else st.data i
        fileLen := st.fileLen } := by
  simp [push, hm, not_le.mpr hg]

/-- Behaviour of a single successful push from a well-formed state with
positive capacity: the magic is preserved, the size increments, size stays
at most capacity, capacity is multiplied by 2 exactly when the growth
condition held, previously stored values are unchanged, the pushed value is
stored at the old size, and (when fallocate succeeds) the file-length
invariant is preserved. -/
theorem push_spec {T : Type} (elemSize : Nat) (allocOk : Bool)
    (st : FMVState T) (v : T) (hm : st.magic = MAGIC)
    (hc : 0 < st.capacity) (hs : st.size ≤ st.capacity) :
    ∃ st1, push elemSize allocOk st v = PushResult.ok st1 ∧
      st1.magic = MAGIC ∧
      st1.size = st.size + 1 ∧
      st1.size ≤ st1.capacity ∧
      0 < st1.capacity ∧
      st1.capacity = st.capacity * 2 ^ (if needsGrowth st then 1 else 0) ∧
      (∀ i, i < st.size → st1.data i = st.data i) ∧
      st1.data st.size = v ∧
      (allocOk = true → st.fileLen = headerSize + elemSize * st.capacity →
        st1.fileLen = headerSize + elemSize * st1.capacity) := by
  by_cases hg : st.capacity ≤ st.size
  · have hsz : st.size = st.capacity := Nat.le_antisymm hs hg
    have hng : needsGrowth st = true := by
      simp only [needsGrowth, decide_eq_true_eq]; exact hg
    refine ⟨_, push_eq_grow elemSize allocOk st v hm hg, ?_⟩
    refine ⟨by simp [grow, hm], by simp [grow], by simp only [grow]; omega,
      by simp only [grow]; omega, by simp [grow, hng, pow_one], ?_, ?_, ?_⟩
    · intro i hi
      have hne : i ≠ st.size := Nat.ne_of_lt hi
      simp [grow, hne]
    · simp [grow]
    · intro hao hinv
      simp only [grow, hao, and_true]
      by_cases hz : elemSize * (st.capacity * 2 - st.capacity) = 0
      · have hez : elemSize = 0 := by
          rcases Nat.mul_eq_zero.mp hz with h | h
          · exact h
          · omega
        simp [hz, hinv, hez]
      · rw [if_pos hz]
        have h2 : st.capacity * 2 - st.capacity = st.capacity := by omega
        rw [h2] at hz ⊢
        have hle : st.fileLen ≤ elemSize * st.capacity + headerSize +
            elemSize * st.capacity := by
          rw [hinv]; omega
        rw [Nat.max_eq_right hle]
        ring
  · push_neg at hg
    have hng : needsGrowth st = false := by
      simp only [needsGrowth, decide_eq_false_iff_not]; omega
    refine ⟨_, push_eq_nogrow elemSize allocOk st v hm hg, ?_⟩
    refine ⟨hm, rfl, by simp only []; omega, by simpa using hc,
      by simp [hng], ?_, by simp, ?_⟩
    · intro i hi
      have hne : i ≠ st.size := Nat.ne_of_lt hi
      simp [hne]
    · intro _ hinv
      simpa using hinv

/-- Behaviour of a whole run of pushes from a well-formed state with
positive capacity: no abort, the size grows by the number of pushes and
stays at most the capacity, the capacity is the starting capacity times two
to the number of growth events, previously stored values are untouched, the
pushed values are stored in order after the old size, and with successful
allocation the file-length invariant is preserved. -/
theorem run_spec {T : Type} (elemSize : Nat) (allocOk : Bool)
    (vs : List T) : ∀ st : FMVState T, st.magic = MAGIC →
    0 < st.capacity → st.size ≤ st.capacity →
    ∃ st2 g, run elemSize allocOk st vs = some (st2, g) ∧
      st2.magic = MAGIC ∧
      st2.size = st.size + vs.length ∧
      st2.size ≤ st2.capacity ∧
      0 < st2.capacity ∧
      st2.capacity = st.capacity * 2 ^ g ∧
      (∀ i, i < st.size → st2.data i = st.data i) ∧
      (∀ j, ∀ h : j < vs.length, st2.data (st.size + j) = vs.get ⟨j, h⟩) ∧
      (allocOk = true → st.fileLen = headerSize + elemSize * st.capacity →
        st2.fileLen = headerSize + elemSize * st2.capacity) := by
  induction vs with
  | nil =>
    intro st hm hc hs
    refine ⟨st, 0, rfl, hm, by simp, hs, hc, by simp, fun i _ => rfl, ?_, ?_⟩
    · intro j h
      simp at h
    · intro _ h
      exact h
  | cons v vs ih =>
    intro st hm hc hs
    obtain ⟨st1, hpush, hm1, hsz1, hle1, hc1, hcap1, hold1, hnew1, hfl1⟩ :=
      push_spec elemSize allocOk st v hm hc hs
    obtain ⟨st2, g, hrun, hm2, hsz2, hle2, hc2, hcap2, hold2, hnew2, hfl2⟩ :=
      ih st1 hm1 hc1 hle1
    refine ⟨st2, (if needsGrowth st then 1 else 0) + g, ?_, hm2, ?_, hle2,
      hc2, ?_, ?_, ?_, ?_⟩
    · simp only [run, hpush, hrun]
    · simp only [hsz2, hsz1, List.length_cons]
      omega
    · rw [hcap2, hcap1, pow_add, mul_assoc]
    · intro i hi
      rw [hold2 i (by omega), hold1 i hi]
    · intro j h
      match j with
      | 0 =>
        have h0 : st.size + 0 < st1.size := by omega
        rw [hold2 (st.size + 0) h0]
        simpa using hnew1
      | Nat.succ j =>
        have hj : j < vs.length := by simpa using Nat.lt_of_succ_lt_succ h
        have harg : st.size + (j + 1) = st1.size + j := by omega
        rw [harg, hnew2 j hj]
        rfl
    · intro hao hinv
      exact hfl2 hao (hfl1 hao hinv)

/-- Run of pushes that all fit inside the current capacity: no abort, no
growth event, size grows by the number of pushes, capacity and file length
are unchanged. -/
theorem run_nogrow {T : Type} (elemSize : Nat) (allocOk : Bool)
    (vs : List T) : ∀ st : FMVState T, st.magic = MAGIC →
    st.size + vs.length ≤ st.capacity →
    ∃ st2, run elemSize allocOk st vs = some (st2, 0) ∧
      st2.magic = MAGIC ∧
      st2.size = st.size + vs.length ∧
      st2.capacity = st.capacity ∧
      st2.fileLen = st.fileLen := by
  induction vs with
  | nil =>
    intro st hm _
    exact ⟨st, rfl, hm, by simp, rfl, rfl⟩
  | cons v vs ih =>
    intro st hm hfit
    have hg : st.size < st.capacity := by
      simp only [List.length_cons] at hfit
      omega
    have hpush := push_eq_nogrow elemSize allocOk st v hm hg
    obtain ⟨st2, hrun, hm2, hsz2, hcap2, hfl2⟩ := ih
      { capacity := st.capacity
        magic := st.magic
        size := st.size + 1
        data := fun i => if i = st.size then v else st.data i
        fileLen := st.fileLen } hm
      (by simp only [List.length_cons] at hfit; simpa using (by omega :
        st.size + 1 + vs.length ≤ st.capacity))
    have hng : needsGrowth st = false := by
      simp only [needsGrowth, decide_eq_false_iff_not]
      omega
    refine ⟨st2, ?_, hm2, ?_, ?_, ?_⟩
    · simp only [run, hpush, hrun, hng, Bool.false_eq_true, if_false,
        Nat.zero_add]
    · simp only [hsz2, List.length_cons]
      omega
    · simpa using hcap2
    · simpa using hfl2

/-- Run of pushes from a state with capacity zero: every push takes the
growth branch (which doubles 0 to 0), no abort occurs, the capacity stays
0, the size grows by the number of pushes, and the pushed values are
stored in order. -/
theorem run_zerocap {T : Type} (elemSize : Nat) (allocOk : Bool)
    (vs : List T) : ∀ st : FMVState T, st.magic = MAGIC →
    st.capacity = 0 →
    ∃ st2, run elemSize allocOk st vs = some (st2, vs.length) ∧
      st2.magic = MAGIC ∧
      st2.capacity = 0 ∧
      st2.size = st.size + vs.length ∧
      (∀ i, i < st.size → st2.data i = st.data i) ∧
      (∀ j, ∀ h : j < vs.length, st2.data (st.size + j) = vs.get ⟨j, h⟩) := by
  induction vs with
  | nil =>
    intro st hm hc
    refine ⟨st, rfl, hm, hc, by simp, fun i _ => rfl, ?_⟩
    intro j h
    simp at h
  | cons v vs ih =>
    intro st hm hc
    have hg : st.capacity ≤ st.size := by omega
    have hpush := push_eq_grow elemSize allocOk st v hm hg
    have hgc : (grow elemSize allocOk st).capacity = 0 := by
      simp [grow, hc]
    have hgs : (grow elemSize allocOk st).size = st.size := by
      simp [grow]
    have hgm : (grow elemSize allocOk st).magic = MAGIC := by
      simp [grow, hm]
    obtain ⟨st2, hrun, hm2, hc2, hsz2, hold2, hnew2⟩ := ih
      { capacity := (grow elemSize allocOk st).capacity
        magic := (grow elemSize allocOk st).magic
        size := (grow elemSize allocOk st).size + 1
        data := fun i => if i = (grow elemSize allocOk st).size then v
          else (grow elemSize allocOk st).data i
        fileLen := (grow elemSize allocOk st).fileLen } hgm hgc
    have hng : needsGrowth st = true := by
      simp only [needsGrowth, decide_eq_true_eq]
      exact hg
    refine ⟨st2, ?_, hm2, hc2, ?_, ?_, ?_⟩
    · simp only [run, hpush, hrun, hng, if_true, List.length_cons]
      rw [Nat.add_comm 1 vs.length]
    · simp only [hsz2, hgs, List.length_cons]
      omega
    · intro i hi
      have hi1 : i < (grow elemSize allocOk st).size + 1 := by omega
      rw [hold2 i hi1]
      have hne : i ≠ (grow elemSize allocOk st).size := by
        rw [hgs]; omega
      simp only [hne, if_false]
      simp [grow]
    · intro j h
      match j with
      | 0 =>
        have h0 : st.size + 0 < (grow elemSize allocOk st).size + 1 := by
          omega
        rw [hold2 (st.size + 0) h0]
        simp [hgs]
      | Nat.succ j =>
        have hj : j < vs.length := by simpa using Nat.lt_of_succ_lt_succ h
        have harg : st.size + (j + 1) =
            ((grow elemSize allocOk st).size + 1) + j := by
          rw [hgs]; omega
        have hget := hnew2 j hj
        simp only at hget
        rw [harg, hget]
        rfl

/-- Unfolding of `run` on a cons. -/
theorem run_cons {T : Type} (elemSize : Nat) (allocOk : Bool)
    (st : FMVState T) (v : T) (vs : List T) :
    run elemSize allocOk st (v :: vs) =
      match push elemSize allocOk st v with
      | PushResult.abort => none
      | PushResult.ok st1 =>
        match run elemSize allocOk st1 vs with
        | none => none
        | some (st2, g) =>
          some (st2, (if needsGrowth st then 1 else 0) + g) := rfl

/-- Runs compose: running `xs ++ ys` is running `xs`, then `ys` from the
resulting state, adding the growth counts. -/
theorem run_append {T : Type} (elemSize : Nat) (allocOk : Bool)
    (xs : List T) : ∀ (ys : List T) (st : FMVState T),
    run elemSize allocOk st (xs ++ ys) =
      (run elemSize allocOk st xs).bind (fun p =>
        (run elemSize allocOk p.1 ys).map (fun q => (q.1, p.2 + q.2))) := by
  induction xs with
  | nil =>
    intro ys st
    simp only [List.nil_append]
    cases h : run elemSize allocOk st ys with
    | none => simp [run, h]
    | some q => simp [run, h]
  | cons x xs ih =>
    intro ys st
    rw [List.cons_append, run_cons, run_cons]
    cases hp : push elemSize allocOk st x with
    | abort => rfl
    | ok st1 =>
      dsimp only
      rw [ih ys st1]
      cases h1 : run elemSize allocOk st1 xs with
      | none => rfl
      | some p =>
        obtain ⟨stA, g1⟩ := p
        cases h2 : run elemSize allocOk stA ys with
        | none => simp [h2]
        | some q =>
          obtain ⟨stB, g2⟩ := q
          simp [h2, Nat.add_assoc]

/-- Inversion of a successful `newChecked`: the element size is nonzero,
the checks passed, and the resulting state views the file, with
`fileLen = headerSize + elemSize * capacity` by the divisibility check. -/
theorem newChecked_ok_fileLen {T : Type} (elemSize : Nat) (mmapOk : Bool)
    (f1 : FileM T) (st0 : FMVState T)
    (h : (newChecked elemSize mmapOk f1).1 = NewResult.ok st0) :
    st0.fileLen = headerSize + elemSize * st0.capacity := by
  unfold newChecked at h
  by_cases hge : headerSize ≤ f1.length
  · rw [if_pos hge] at h
    by_cases he : elemSize = 0
    · rw [if_pos he] at h
      exact NewResult.noConfusion h
    · rw [if_neg he] at h
      by_cases hmod : (f1.length - headerSize) % elemSize = 0
      · rw [if_pos hmod] at h
        by_cases hmk : mmapOk = true
        · rw [if_pos hmk] at h
          have h2 : NewResult.ok
              { capacity := (f1.length - headerSize) / elemSize
                magic := f1.magic
                size := f1.hsize
                data := f1.data
                fileLen := f1.length } = NewResult.ok st0 := h
          cases h2
          have hdvd : elemSize ∣ (f1.length - headerSize) :=
            Nat.dvd_of_mod_eq_zero hmod
          show f1.length = headerSize +
            elemSize * ((f1.length - headerSize) / elemSize)
          rw [Nat.mul_div_cancel' hdvd]
          omega
        · rw [if_neg hmk] at h
          exact NewResult.noConfusion h
      · rw [if_neg hmod] at h
        exact NewResult.noConfusion h
  · rw [if_neg hge] at h
    exact NewResult.noConfusion h

/-! Claim theorems. -/

/-- Claim C5: a growth event (the Needs-Growth branch of append, embedded
as `grow`) sets the capacity to exactly twice its previous value, does not
change the logical size, and does not change the value stored at any index
(in particular at any index below the pre-growth length): growth moves no
data. -/
theorem C5_growth_frame {T : Type} (elemSize : Nat) (allocOk : Bool)
    (st : FMVState T) :
    (grow elemSize allocOk st).capacity = st.capacity * 2 ∧
    (grow elemSize allocOk st).size = st.size ∧
    ∀ i, (grow elemSize allocOk st).data i = st.data i :=
  ⟨rfl, rfl, fun _ => rfl⟩

/-- Claim C7: on a file whose permissions are read-only, construction
returns `PermissionError` with the file unchanged, for every outcome of the
mapping step (so no mapping or file-size change can have occurred), and no
instance is created. -/
theorem C7_readonly_permission_error {T : Type} (elemSize : Nat)
    (mmapOk : Bool) (f : FileM T) (h : f.readonly = true) :
    new elemSize mmapOk f = (NewResult.err NewError.PermissionError, f) := by
  simp [new, h]

/-- Witness for C7 at a concrete read-only file. -/
theorem C7_readonly_permission_error_witness :
    roFileNat.readonly = true ∧
    new 8 true roFileNat = (NewResult.err NewError.PermissionError,
      roFileNat) :=
  ⟨rfl, C7_readonly_permission_error 8 true roFileNat rfl⟩

/-- Claim C8: the three contract violations abort execution rather than
returning a value: indexing at or beyond the capacity aborts (the `assert`
in `index`, modelled as `none`); a magic mismatch observed by an operation
after attach makes `push` abort; and constructing on an existing file whose
data-region length is not a multiple of the element size aborts. -/
theorem C8_contract_violations_abort {T : Type} (elemSize : Nat) :
    (∀ (st : FMVState T) (i : Nat), st.capacity ≤ i → index st i = none) ∧
    (∀ (allocOk : Bool) (st : FMVState T) (v : T), st.magic ≠ MAGIC →
      push elemSize allocOk st v = PushResult.abort) ∧
    (∀ (mmapOk : Bool) (f : FileM T), f.readonly = false → f.length ≠ 0 →
      headerSize ≤ f.length → elemSize ≠ 0 →
      (f.length - headerSize) % elemSize ≠ 0 →
      (new elemSize mmapOk f).1 = NewResult.abort) := by
  refine ⟨?_, ?_, ?_⟩
  · intro st i h
    simp [index, Nat.not_lt.mpr h]
  · intro allocOk st v h
    simp [push, h]
  · intro mmapOk f hro hne hge he hmod
    simp [new, newChecked, hro, hne, hge, he, hmod]

/-- Witness for C8 at concrete inputs: index 40 on a capacity-32 state,
a push on an all-zero-magic state, and construction on a 4100-byte file
with 8-byte elements. -/
theorem C8_contract_violations_abort_witness :
    (invState.capacity ≤ 40 ∧ index invState 40 = none) ∧
    (badMagicState.magic ≠ MAGIC ∧
      push 8 true badMagicState 5 = PushResult.abort) ∧
    ((badModFile.readonly = false ∧ badModFile.length ≠ 0 ∧
        headerSize ≤ badModFile.length ∧ (8 : Nat) ≠ 0 ∧
        (badModFile.length - headerSize) % 8 ≠ 0) ∧
      (new 8 true badModFile).1 = NewResult.abort) :=
  ⟨⟨by decide, (C8_contract_violations_abort 8).1 invState 40 (by decide)⟩,
   ⟨by decide,
    (C8_contract_violations_abort 8).2.1 true badMagicState 5 (by decide)⟩,
   ⟨⟨rfl, by decide, by decide, by decide, by decide⟩,
    (C8_contract_violations_abort 8).2.2 true badModFile rfl (by decide)
      (by decide) (by decide) (by decide)⟩⟩

/-- Claim C1: for an instance created by `new` on an empty file (nonzero
element size, writable permissions, allocations succeeding), appending N
values via `push` never aborts, `len` then returns N, and indexing at every
i < N returns exactly the i-th appended value, in append order. -/
theorem C1_append_length_get {T : Type} (elemSize : Nat) (he : elemSize ≠ 0)
    (f : FileM T) (hro : f.readonly = false) (hlen : f.length = 0)
    (vs : List T) :
    ∃ st0 st g, (new elemSize true f).1 = NewResult.ok st0 ∧
      run elemSize true st0 vs = some (st, g) ∧
      len st = vs.length ∧
      ∀ j, ∀ h : j < vs.length, index st j = some (vs.get ⟨j, h⟩) := by
  have hnew := new_empty elemSize he f hro hlen
  obtain ⟨st2, g, hrun, hm2, hsz2, hle2, hc2, hcap2, hold2, hnew2, hfl2⟩ :=
    run_spec elemSize true vs
      { capacity := 32, magic := MAGIC, size := 0, data := f.data
        fileLen := headerSize + elemSize * 32 } rfl (by norm_num)
      (by norm_num)
  simp only at hsz2 hnew2
  refine ⟨_, st2, g, by rw [hnew], hrun, ?_, ?_⟩
  · simp only [len, hsz2]
    omega
  · intro j h
    have hj : j < st2.size := by omega
    have hlt : j < st2.capacity := by omega
    have hget := hnew2 j h
    simp only [Nat.zero_add] at hget
    simp only [index, if_pos hlt, hget]

/-- Witness for C1: three values pushed onto an instance freshly created on
an empty file. -/
theorem C1_append_length_get_witness :
    ((8 : Nat) ≠ 0 ∧ emptyFileNat.readonly = false ∧
      emptyFileNat.length = 0) ∧
    (∃ st0 st g, (new 8 true emptyFileNat).1 = NewResult.ok st0 ∧
      run 8 true st0 [5, 6, 7] = some (st, g) ∧
      len st = 3 ∧
      ∀ j, ∀ h : j < 3, index st j = some (List.get [5, 6, 7] ⟨j, h⟩)) :=
  ⟨⟨by decide, rfl, rfl⟩,
   C1_append_length_get 8 (by decide) emptyFileNat rfl rfl [5, 6, 7]⟩

/-- Claim C4 counterexample: `new` does not validate the stored size
against the computed capacity, so on a well-formed 4104-byte file whose
header records 5 elements the open instance immediately has
length 5 > capacity 1, refuting that length ≤ capacity holds after every
operation on every open instance. -/
theorem C4_counterexample :
    ∃ st0, (new 8 true c4file).1 = NewResult.ok st0 ∧
      st0.capacity < len st0 := by
  refine ⟨_, rfl, ?_⟩
  decide

/-- Claim C4 as amended: for an open instance whose state satisfies
length ≤ capacity and 0 < capacity, every run of pushes preserves
length ≤ capacity, never decreases the capacity, and leaves the capacity
equal to the starting capacity multiplied by a power of two (two to the
number of growth events). -/
theorem C4_capacity_invariants {T : Type} (elemSize : Nat) (allocOk : Bool)
    (st : FMVState T) (vs : List T) (hm : st.magic = MAGIC)
    (hc : 0 < st.capacity) (hs : st.size ≤ st.capacity) :
    ∃ st2 g, run elemSize allocOk st vs = some (st2, g) ∧
      len st2 ≤ st2.capacity ∧
      st.capacity ≤ st2.capacity ∧
      st2.capacity = st.capacity * 2 ^ g := by
  obtain ⟨st2, g, hrun, _, _, hle, hcpos, hcap, _, _, _⟩ :=
    run_spec elemSize allocOk vs st hm hc hs
  refine ⟨st2, g, hrun, hle, ?_, hcap⟩
  rw [hcap]
  have h1 : 1 ≤ 2 ^ g := Nat.one_le_two_pow
  calc st.capacity = st.capacity * 1 := by ring
    _ ≤ st.capacity * 2 ^ g := Nat.mul_le_mul_left _ h1

/-- Witness for C4 (amended) at a concrete capacity-32 state and three
pushes. -/
theorem C4_capacity_invariants_witness :
    (invState.magic = MAGIC ∧ 0 < invState.capacity ∧
      invState.size ≤ invState.capacity) ∧
    (∃ st2 g, run 8 true invState [1, 2, 3] = some (st2, g) ∧
      len st2 ≤ st2.capacity ∧
      invState.capacity ≤ st2.capacity ∧
      st2.capacity = invState.capacity * 2 ^ g) :=
  ⟨⟨rfl, by decide, by decide⟩,
   C4_capacity_invariants 8 true invState [1, 2, 3] rfl (by decide)
     (by decide)⟩

/-- Claim C6: on an instance freshly initialized on an empty file the
initial capacity is exactly 32 elements (a data region of
`32 * elemSize` bytes), appends 1 through 32 trigger no growth event, and
the 33rd append triggers exactly one growth event before succeeding. -/
theorem C6_initial_capacity_first_growth {T : Type} (elemSize : Nat)
    (he : elemSize ≠ 0) (f : FileM T) (hro : f.readonly = false)
    (hlen : f.length = 0) (vs : List T) (hn : vs.length = 33) :
    ∃ st0, (new elemSize true f).1 = NewResult.ok st0 ∧
      st0.capacity = 32 ∧
      st0.fileLen = headerSize + elemSize * 32 ∧
      (∃ st1, run elemSize true st0 (vs.take 32) = some (st1, 0)) ∧
      (∃ st2, run elemSize true st0 vs = some (st2, 1)) := by
  have hnew := new_empty elemSize he f hro hlen
  refine ⟨{ capacity := 32, magic := MAGIC, size := 0, data := f.data
            fileLen := headerSize + elemSize * 32 }, by rw [hnew], rfl, rfl,
    ?_⟩
  have htk : (vs.take 32).length = 32 := by
    simp [hn]
  obtain ⟨st1, hrun1, hm1, hsz1, hcap1, _⟩ :=
    run_nogrow elemSize true (vs.take 32)
      { capacity := 32, magic := MAGIC, size := 0, data := f.data
        fileLen := headerSize + elemSize * 32 } rfl (by rw [htk])
  simp only at hsz1 hcap1
  rw [htk] at hsz1
  refine ⟨⟨st1, hrun1⟩, ?_⟩
  obtain ⟨v, hv⟩ : ∃ v, vs.drop 32 = [v] := by
    apply List.length_eq_one.mp
    simp [hn]
  have hg : st1.capacity ≤ st1.size := by omega
  have hng : needsGrowth st1 = true := by
    simp only [needsGrowth, decide_eq_true_eq]
    exact hg
  have hone : run elemSize true st1 [v] =
      some ({ capacity := (grow elemSize true st1).capacity
              magic := (grow elemSize true st1).magic
              size := (grow elemSize true st1).size + 1
              data := fun i => if i = (grow elemSize true st1).size then v
                else (grow elemSize true st1).data i
              fileLen := (grow elemSize true st1).fileLen }, 1) := by
    rw [run_cons, push_eq_grow elemSize true st1 v hm1 hg]
    simp [run, hng]
  have hsplit : vs = vs.take 32 ++ [v] := by
    conv_lhs => rw [← List.take_append_drop 32 vs]
    rw [hv]
  rw [hsplit, run_append elemSize true (vs.take 32) [v] _, hrun1]
  simp [hone]

/-- Witness for C6: 33 concrete values pushed onto an instance freshly
created on an empty file. -/
theorem C6_initial_capacity_first_growth_witness :
    ((8 : Nat) ≠ 0 ∧ emptyFileNat.readonly = false ∧
      emptyFileNat.length = 0 ∧ (List.replicate 33 (0 : Nat)).length = 33) ∧
    (∃ st0, (new 8 true emptyFileNat).1 = NewResult.ok st0 ∧
      st0.capacity = 32 ∧
      st0.fileLen = headerSize + 8 * 32 ∧
      (∃ st1, run 8 true st0 ((List.replicate 33 (0 : Nat)).take 32) =
        some (st1, 0)) ∧
      (∃ st2, run 8 true st0 (List.replicate 33 (0 : Nat)) =
        some (st2, 1))) :=
  ⟨⟨by decide, rfl, rfl, by simp⟩,
   C6_initial_capacity_first_growth 8 (by decide) emptyFileNat rfl rfl
     (List.replicate 33 (0 : Nat)) (by simp)⟩

/-- Claim C3 counterexample: on a non-empty file whose magic bytes are all
zero, construction does not fail: `new` returns a constructed instance and
leaves the file unchanged, because `new` never reads the magic. -/
theorem C3_counterexample :
    badMagicFile.magic ≠ MAGIC ∧ badMagicFile.length ≠ 0 ∧
    ∃ st0, new 8 true badMagicFile = (NewResult.ok st0, badMagicFile) := by
  refine ⟨by decide, by decide, _, rfl⟩

/-- Claim C3 as amended: constructing on a non-empty writable file whose
magic differs from the constant does not validate the magic: when the size
checks and the mapping succeed, construction succeeds and the file's
contents and length are not mutated; the mismatch is detected only by the
assertion of the first subsequent operation (`push`), which aborts. -/
theorem C3_no_magic_validation {T : Type} (elemSize : Nat) (allocOk : Bool)
    (f : FileM T) (v : T) (hro : f.readonly = false) (hne : f.length ≠ 0)
    (hge : headerSize ≤ f.length) (he : elemSize ≠ 0)
    (hmod : (f.length - headerSize) % elemSize = 0)
    (hbad : f.magic ≠ MAGIC) :
    ∃ st0, new elemSize true f = (NewResult.ok st0, f) ∧
      push elemSize allocOk st0 v = PushResult.abort := by
  refine ⟨{ capacity := (f.length - headerSize) / elemSize, magic := f.magic
            size := f.hsize, data := f.data, fileLen := f.length }, ?_, ?_⟩
  · simp [new, newChecked, hro, hne, hge, he, hmod]
  · simp [push, hbad]

/-- Witness for C3 (amended) at the all-zero-magic file. -/
theorem C3_no_magic_validation_witness :
    (badMagicFile.readonly = false ∧ badMagicFile.length ≠ 0 ∧
      headerSize ≤ badMagicFile.length ∧ (8 : Nat) ≠ 0 ∧
      (badMagicFile.length - headerSize) % 8 = 0 ∧
      badMagicFile.magic ≠ MAGIC) ∧
    (∃ st0, new 8 true badMagicFile = (NewResult.ok st0, badMagicFile) ∧
      push 8 true st0 7 = PushResult.abort) :=
  ⟨⟨rfl, by decide, by decide, by decide, by decide, by decide⟩,
   C3_no_magic_validation 8 true badMagicFile 7 rfl (by decide) (by decide)
     (by decide) (by decide) (by decide)⟩

/-- Claim C2 (code bug, at a concrete failing input): on an instance
attached to a full one-element file, a push whose physical-allocation step
(fallocate) fails is not surfaced to the caller — `push` returns normally
(its result type has no error constructor at all) — and the logical state
changes: the capacity doubles, the element is written, the length
increments, while the backing file keeps its old length. -/
theorem C2_allocation_failure_not_surfaced :
    ∃ st0 st1, (new 8 true c2file).1 = NewResult.ok st0 ∧
      st0.size = 1 ∧ st0.capacity = 1 ∧ st0.fileLen = 4104 ∧
      push 8 false st0 77 = PushResult.ok st1 ∧
      st1.size = 2 ∧ st1.capacity = 2 ∧ st1.fileLen = 4104 ∧
      st1.data 1 = 77 := by
  refine ⟨_, _, rfl, by decide, by decide, by decide, rfl, by decide,
    by decide, by decide, by decide⟩

/-- Claim C9 counterexample: a push whose fallocate fails still completes,
doubling the in-memory capacity without extending the file, so afterwards
the file length is no longer `4096 + capacity * elemSize`. -/
theorem C9_counterexample :
    ∃ st0 st1, (new 8 true c9file).1 = NewResult.ok st0 ∧
      st0.fileLen = headerSize + 8 * st0.capacity ∧
      push 8 false st0 9 = PushResult.ok st1 ∧
      st1.fileLen ≠ headerSize + 8 * st1.capacity := by
  refine ⟨_, _, rfl, by decide, rfl, by decide⟩

/-- Claim C9 as amended: successful construction establishes
`fileLen = headerSize + elemSize * capacity`, and every run of pushes in
which the physical allocation succeeds preserves it (for an instance with
length ≤ capacity and 0 < capacity); a push with a failed allocation breaks
it. -/
theorem C9_file_length_invariant {T : Type} (elemSize : Nat) (mmapOk : Bool)
    (f : FileM T) (vs : List T) :
    (∀ st0, (new elemSize mmapOk f).1 = NewResult.ok st0 →
      st0.fileLen = headerSize + elemSize * st0.capacity) ∧
    (∀ st : FMVState T, st.magic = MAGIC → 0 < st.capacity →
      st.size ≤ st.capacity →
      st.fileLen = headerSize + elemSize * st.capacity →
      ∃ st2 g, run elemSize true st vs = some (st2, g) ∧
        st2.fileLen = headerSize + elemSize * st2.capacity) := by
  constructor
  · intro st0 h
    by_cases hro : f.readonly
    · simp [new, hro] at h
    · simp only [new, hro, Bool.false_eq_true, if_false] at h
      exact newChecked_ok_fileLen elemSize mmapOk _ st0 h
  · intro st hm hc hs hinv
    obtain ⟨st2, g, hrun, _, _, _, _, _, _, _, hfl⟩ :=
      run_spec elemSize true vs st hm hc hs
    exact ⟨st2, g, hrun, hfl rfl hinv⟩

/-- Witness for C9 (amended): the instance constructed on an empty file,
and two pushes from a well-formed capacity-32 state. -/
theorem C9_file_length_invariant_witness :
    ((new 8 true emptyFileNat).1 = NewResult.ok invState ∧
      invState.fileLen = headerSize + 8 * invState.capacity) ∧
    (invState.magic = MAGIC ∧ 0 < invState.capacity ∧
      invState.size ≤ invState.capacity ∧
      ∃ st2 g, run 8 true invState [1, 2] = some (st2, g) ∧
        st2.fileLen = headerSize + 8 * st2.capacity) :=
  ⟨⟨rfl, (C9_file_length_invariant 8 true emptyFileNat [1, 2]).1 invState
      rfl⟩,
   ⟨rfl, by decide, by decide,
    (C9_file_length_invariant 8 true emptyFileNat [1, 2]).2 invState rfl
      (by decide) (by decide) (by decide)⟩⟩

/-- Claim C10: attaching to a well-formed file of exactly 4096 bytes (data
region empty, stored size 0) yields capacity 0; every subsequent push takes
the growth branch, whose doubling leaves the capacity at 0, yet still
writes the element and increments the length by 1, so the length exceeds
the capacity from the first push on. This holds for either fallocate
outcome (the code requests a zero-length allocation). The embedding records
the write in the mapped data; it does not model the OS fault that touching
a page past the end of the file could raise. -/
theorem C10_zero_capacity_pushes {T : Type} (elemSize : Nat)
    (he : elemSize ≠ 0) (allocOk : Bool) (f : FileM T)
    (hro : f.readonly = false) (hlen : f.length = headerSize)
    (hm : f.magic = MAGIC) (hh : f.hsize = 0) (vs : List T) :
    ∃ st0, (new elemSize true f).1 = NewResult.ok st0 ∧
      st0.capacity = 0 ∧
      ∃ st2, run elemSize allocOk st0 vs = some (st2, vs.length) ∧
        st2.capacity = 0 ∧
        len st2 = vs.length ∧
        (∀ j, ∀ h : j < vs.length, st2.data j = vs.get ⟨j, h⟩) ∧
        (vs ≠ [] → st2.capacity < len st2) := by
  refine ⟨{ capacity := 0, magic := MAGIC, size := 0, data := f.data
            fileLen := headerSize }, ?_, rfl, ?_⟩
  · simp [new, newChecked, hro, hlen, hm, hh, he, headerSize]
  · obtain ⟨st2, hrun, hm2, hc2, hsz2, _, hnew2⟩ :=
      run_zerocap elemSize allocOk vs
        { capacity := 0, magic := MAGIC, size := 0, data := f.data
          fileLen := headerSize } rfl rfl
    simp only at hsz2 hnew2
    refine ⟨st2, hrun, hc2, ?_, ?_, ?_⟩
    · simp only [len, hsz2]
      omega
    · intro j h
      have hget := hnew2 j h
      simp only [Nat.zero_add] at hget
      exact hget
    · intro hne
      have hpos : 0 < vs.length := List.length_pos.mpr hne
      simp only [len, hsz2, hc2]
      omega

/-- Witness for C10: two values pushed after attaching to the 4096-byte
file. -/
theorem C10_zero_capacity_pushes_witness :
    ((8 : Nat) ≠ 0 ∧ zeroCapFile.readonly = false ∧
      zeroCapFile.length = headerSize ∧ zeroCapFile.magic = MAGIC ∧
      zeroCapFile.hsize = 0) ∧
    (∃ st0, (new 8 true zeroCapFile).1 = NewResult.ok st0 ∧
      st0.capacity = 0 ∧
      ∃ st2, run 8 true st0 [4, 5] = some (st2, ([4, 5] : List Nat).length) ∧
        st2.capacity = 0 ∧
        len st2 = ([4, 5] : List Nat).length ∧
        (∀ j, ∀ h : j < ([4, 5] : List Nat).length,
          st2.data j = List.get [4, 5] ⟨j, h⟩) ∧
        (([4, 5] : List Nat) ≠ [] → st2.capacity < len st2)) :=
  ⟨⟨by decide, rfl, rfl, rfl, rfl⟩,
   C10_zero_capacity_pushes 8 (by decide) true zeroCapFile rfl rfl rfl rfl
     [4, 5]⟩

end FMVec
